import Mathlib

/-!
Verification development for the URL shortener backend
(`src/backend/server.js`).  The server is shallowly embedded: the two
Mongo collections become a pure `DB` value, each Express handler becomes
a pure function from a request and a `DB` to a response and an updated
`DB`, and the JavaScript string builtins used by the handlers are
modelled as Lean functions on `String`.
-/

/-! ## Definitions -/

/-- The 62-character alphabet `BASE62_CHARS` from `server.js`:
digits, then lowercase, then uppercase. -/
def BASE62_CHARS : String :=
  "0123456789abcdefghijklmnopqrstuvwxyzABCDEFGHIJKLMNOPQRSTUVWXYZ"

/-- The `while (num > 0)` loop of `encodeBase62`, accumulating digits
most-significant first: each step prepends `BASE62_CHARS[num % 62]` and
divides `num` by 62.  The loop runs at most `num` iterations (the value
strictly decreases), so structural recursion on a fuel bound of `num`
computes the same list as the JS loop whenever `num ≤ fuel`. -/
def encodeBase62Go : Nat → Nat → List Char → List Char
  | 0, _, result => result
  | _ + 1, 0, result => result
  | fuel + 1, num + 1, result =>
    encodeBase62Go fuel ((num + 1) / 62)
      (BASE62_CHARS.data.getD ((num + 1) % 62) '0' :: result)

/-- `encodeBase62` from `server.js`: base-62 representation of a
non-negative integer, `0` mapping to the first alphabet character. -/
def encodeBase62 (num : Nat) : String :=
  if num = 0 then String.mk [BASE62_CHARS.data.getD 0 '0']
  else String.mk (encodeBase62Go num num [])

/-- Index of a character in the base-62 alphabet (position of `c` in
`BASE62_CHARS`). -/
def b62idx (c : Char) : Nat :=
  BASE62_CHARS.data.findIdx (fun d => d = c)

/-- One step of positional decoding. -/
def b62val (acc : Nat) (c : Char) : Nat :=
  acc * 62 + b62idx c

/-- Modelled from the spec: `server.js` has no `decode`, but §4.1
requires the encoding to "be the algebraic inverse of a corresponding
`decode`".  This is the standard positional base-62 decode over the same
alphabet, most-significant digit first. -/
def decodeBase62 (s : String) : Nat :=
  s.data.foldl b62val 0

/-- Model of the JavaScript builtin `String.prototype.startsWith` used
by the redirect handler: true exactly when the second string is a prefix
of the first. -/
def jsStartsWith (s pre : String) : Bool :=
  pre.data.isPrefixOf s.data

/-- Whitespace removed by the JavaScript builtin
`String.prototype.trim`: space, tab, line feed, vertical tab, form
feed, carriage return (the ASCII part of the WhiteSpace and
LineTerminator productions). -/
def isJsSpace (c : Char) : Bool :=
  c.toNat = 32 || c.toNat = 9 || c.toNat = 10 || c.toNat = 11 ||
    c.toNat = 12 || c.toNat = 13

/-- Model of the JavaScript builtin `String.prototype.trim` used by the
shorten handler: strip whitespace from both ends. -/
def jsTrim (s : String) : String :=
  String.mk (((s.data.dropWhile isJsSpace).reverse.dropWhile isJsSpace).reverse)

/-- Characters allowed inside a URL scheme after the leading letter
(letters, digits, `+`, `-`, `.`). -/
def isSchemeChar (c : Char) : Bool :=
  c.isAlphanum || c = '+' || c = '-' || c = '.'

/-- Scans scheme characters until the terminating colon; fails on any
other character or on end of input. -/
def schemeGo : List Char → List Char → Option (List Char)
  | _, [] => none
  | acc, c :: rest =>
    if c = ':' then some acc.reverse
    else if isSchemeChar c then schemeGo (c :: acc) rest
    else none

/-- Modelled from the spec: `isValidUrl` calls the WHATWG `URL`
constructor, a platform builtin that is not repository code; §4.4 only
requires rejecting input that is "empty, not a well-formed URL, or its
scheme is not `http`/`https`".  We model `new URL(s)` by the one
observable `isValidUrl` reads, its `protocol`: parsing succeeds when the
string starts with a scheme (a letter followed by scheme characters)
terminated by `:`, and `protocol` is the lowercased scheme including the
colon. -/
def urlProtocol (s : String) : Option String :=
  match s.data with
  | [] => none
  | c :: rest =>
    if c.isAlpha then
      (schemeGo [c] rest).map (fun l => String.mk (l.map Char.toLower ++ [':']))
    else none

/-- `isValidUrl` from `server.js`: `new URL(string)` must succeed and
its protocol must be `http:` or `https:`. -/
def isValidUrl (string : String) : Bool :=
  match urlProtocol string with
  | some protocol => protocol = "http:" || protocol = "https:"
  | none => false

/-- `isValidShortCode` from `server.js`:
`/^[a-zA-Z0-9]+$/.test(code) && code.length >= 1 && code.length <= 10`.
The regex accepts exactly the nonempty strings of ASCII letters and
digits. -/
def isValidShortCode (code : String) : Bool :=
  (!code.data.isEmpty && code.data.all (fun c => c.isAlpha || c.isDigit))
    && decide (1 ≤ code.length) && decide (code.length ≤ 10)

/-- A document of the `Url` collection (`urlSchema`).  The
time-valued `createdAt` field is immutable metadata no claim depends
on and is omitted. -/
structure UrlRecord where
  originalUrl : String
  shortCode : String
  clicks : Nat
  deriving DecidableEq

/-- The persistent state: the `Url` collection in insertion order and
the single `Counter` document named `urlId` (`none` when that document
does not exist). -/
structure DB where
  urls : List UrlRecord
  counter : Option Nat
  deriving DecidableEq

/-- `Url.findOne({ originalUrl })`: first record with that original
URL. -/
def findByOriginalUrl (urls : List UrlRecord) (url : String) : Option UrlRecord :=
  urls.find? (fun r => r.originalUrl == url)

/-- `Url.findOne({ shortCode })`: first record with that short code. -/
def findByShortCode (urls : List UrlRecord) (code : String) : Option UrlRecord :=
  urls.find? (fun r => r.shortCode == code)

/-- `initializeCounter` from `server.js`: on startup, create the
`urlId` counter with value 100000 if it does not exist. -/
def initializeCounter (db : DB) : DB :=
  match db.counter with
  | some _ => db
  | none => { db with counter := some 100000 }

/-- `getNextCounterValue` from `server.js`: an atomic
findOneAndUpdate upsert on the urlId counter document, incrementing
by 1 and returning the new value.  An existing counter is incremented
and the post-increment value returned; an absent counter is upserted
(the increment applied to the schema default 0 yields 1). -/
def getNextCounterValue (db : DB) : Nat × DB :=
  match db.counter with
  | some value => (value + 1, { db with counter := some (value + 1) })
  | none => (1, { db with counter := some 1 })

/-- Responses of the shorten endpoint, POST /api/create/longurl, one constructor per
`return` in the handler. -/
inductive ShortenOutcome where
  /-- Status 400, "Long URL is required and must be a string". -/
  | missingUrl
  /-- Status 400, "Invalid URL format". -/
  | invalidUrl
  /-- Status 200, "URL already exists", carrying the existing short code and
  the trimmed URL echoed back. -/
  | alreadyExists (shortCode : String) (originalUrl : String)
  /-- Status 201, "Short URL created successfully". -/
  | createdNew (shortCode : String) (originalUrl : String)
  /-- Status 500, "Internal server error", from the catch block of the
  handler (in
  particular when `save()` rejects on the unique `shortCode` index). -/
  | internalError
  deriving DecidableEq

/-- HTTP status attached to each shorten response. -/
def ShortenOutcome.status : ShortenOutcome → Nat
  | .missingUrl => 400
  | .invalidUrl => 400
  | .alreadyExists _ _ => 200
  | .createdNew _ _ => 201
  | .internalError => 500

/-- The shorten handler, POST /api/create/longurl.  The argument is
`req.body.longUrl` (`none` models a missing or non-string field; the
empty string is falsy in JS and takes the same branch).  Returns the
response and the updated store.  A duplicate short code makes
`newUrl.save()` reject on the unique index, landing in the catch block
after the counter increment has already persisted. -/
def shorten (db : DB) (longUrl : Option String) : ShortenOutcome × DB :=
  match longUrl with
  | none => (.missingUrl, db)
  | some u =>
    if u = "" then (.missingUrl, db)
    else
      let trimmedUrl := jsTrim u
      if isValidUrl trimmedUrl = false then (.invalidUrl, db)
      else
        match findByOriginalUrl db.urls trimmedUrl with
        | some existingUrl => (.alreadyExists existingUrl.shortCode trimmedUrl, db)
        | none =>
          let next := getNextCounterValue db
          let shortCode := encodeBase62 next.1
          match findByShortCode next.2.urls shortCode with
          | some _ => (.internalError, next.2)
          | none =>
            (.createdNew shortCode trimmedUrl,
             { next.2 with
                urls := next.2.urls ++
                  [{ originalUrl := trimmedUrl, shortCode := shortCode, clicks := 0 }] })

/-- Responses of the catch-all redirect handler. -/
inductive ResolveOutcome where
  /-- Status 404, "Page not found", for reserved paths. -/
  | pageNotFound
  /-- Status 400, "Invalid short code format". -/
  | invalidShortCode
  /-- Status 404, "Short URL not found", echoing the code. -/
  | notFound (shortCode : String)
  /-- Status 301, a permanent redirect to the stored original URL. -/
  | redirect (location : String)
  deriving DecidableEq

/-- HTTP status attached to each redirect-handler response. -/
def ResolveOutcome.status : ResolveOutcome → Nat
  | .pageNotFound => 404
  | .invalidShortCode => 400
  | .notFound _ => 404
  | .redirect _ => 301

/-- `findByIdAndUpdate(urlDoc._id, { $inc: { clicks: 1 } })`: bump the
click count of the record found by the handler (identified here by its
short code, which the uniqueness invariant keeps unambiguous). -/
def incrementClicks (urls : List UrlRecord) (code : String) : List UrlRecord :=
  urls.map (fun r => if r.shortCode == code then { r with clicks := r.clicks + 1 } else r)

/-- The catch-all redirect handler.  `path` is the wildcard match
`req.params[0]` (the empty string is falsy and takes the reserved
branch).  The click increment is issued fire-and-forget — the response
never waits on it; `incrementOk` says whether that detached update
eventually succeeds, a failure being only logged. -/
def resolveWith (db : DB) (path : String) (incrementOk : Bool) : ResolveOutcome × DB :=
  if path = "" ∨ jsStartsWith path "api/" = true ∨ path = "favicon.ico" then
    (.pageNotFound, db)
  else if isValidShortCode path = false then
    (.invalidShortCode, db)
  else
    match findByShortCode db.urls path with
    | none => (.notFound path, db)
    | some urlDoc =>
      (.redirect urlDoc.originalUrl,
       if incrementOk then { db with urls := incrementClicks db.urls urlDoc.shortCode }
       else db)

/-- Responses of the info endpoint, GET /api/info/{code}. -/
inductive InfoOutcome where
  /-- Status 400, "Invalid short code format". -/
  | invalidCode
  /-- Status 404, "Short URL not found". -/
  | notFound
  /-- Status 200 with the record data. -/
  | found (originalUrl : String) (shortCode : String) (clicks : Nat)
  deriving DecidableEq

/-- The info handler, GET /api/info/{code}: read-only lookup. -/
def info (db : DB) (code : String) : InfoOutcome × DB :=
  if code = "" ∨ isValidShortCode code = false then (.invalidCode, db)
  else
    match findByShortCode db.urls code with
    | none => (.notFound, db)
    | some urlDoc => (.found urlDoc.originalUrl urlDoc.shortCode urlDoc.clicks, db)

/-- One incoming request, for reasoning about arbitrary interleavings
of the three operations. -/
inductive Op where
  | shortenReq (longUrl : Option String)
  | resolveReq (path : String) (incrementOk : Bool)
  | infoReq (code : String)

/-- State reached after serving one request. -/
def step (db : DB) : Op → DB
  | .shortenReq u => (shorten db u).2
  | .resolveReq p ok => (resolveWith db p ok).2
  | .infoReq c => (info db c).2

/-- State reached after serving a sequence of requests. -/
def run (db : DB) : List Op → DB
  | [] => db
  | op :: ops => run (step db op) ops

/-- The state a fresh deployment starts in: empty store, then
`connectDB` runs `initializeCounter`. -/
def initDB : DB :=
  initializeCounter { urls := [], counter := none }

/-- The values handed out by `k` successive `getNextCounterValue`
calls. -/
def nextValues (db : DB) : Nat → List Nat
  | 0 => []
  | k + 1 => (getNextCounterValue db).1 :: nextValues (getNextCounterValue db).2 k

/-- Short codes currently stored, in insertion order. -/
def codes (db : DB) : List String :=
  db.urls.map (fun r => r.shortCode)

/-- The invariant every state reachable from a fresh boot satisfies:
the counter document exists, sits at or above the starting offset, and
every stored short code was produced by the encoder from some value the
counter has already passed. -/
def GoodDB (db : DB) : Prop :=
  ∃ c, db.counter = some c ∧ 100000 ≤ c ∧
    ∀ r ∈ db.urls, ∃ v, v ≤ c ∧ 1 ≤ v ∧ r.shortCode = encodeBase62 v

/-! ## Helper lemmas -/

/-- Looking up the alphabet at an in-range index and finding that
character back returns the index: the 62 characters are distinct. -/
theorem b62idx_getD (i : Nat) (h : i < 62) :
    b62idx (BASE62_CHARS.data.getD i '0') = i := by
  revert h
  revert i
  decide

/-- Fuel irrelevance plus the decode invariant in one statement:
running the encode loop and then folding the decoder over the result
recovers the accumulated value. -/
theorem encodeBase62Go_decode (fuel : Nat) :
    ∀ num result, num ≤ fuel →
      (encodeBase62Go fuel num result).foldl b62val 0 =
        result.foldl b62val num := by
  induction fuel with
  | zero =>
    intro num result h
    interval_cases num
    rfl
  | succ f ih =>
    intro num result h
    match num with
    | 0 => rfl
    | n + 1 =>
      rw [encodeBase62Go]
      rw [ih ((n + 1) / 62) _ (by omega)]
      simp only [List.foldl_cons]
      have hmod : (n + 1) % 62 < 62 := Nat.mod_lt _ (by norm_num)
      rw [b62val, b62idx_getD _ hmod]
      have hdm : (n + 1) / 62 * 62 + (n + 1) % 62 = n + 1 := by omega
      rw [hdm]

/-- Decoding inverts encoding. -/
theorem decodeBase62_encodeBase62 (n : Nat) :
    decodeBase62 (encodeBase62 n) = n := by
  by_cases h : n = 0
  · subst h; rfl
  · rw [encodeBase62, if_neg h, decodeBase62]
    exact encodeBase62Go_decode n n [] (Nat.le_refl n)

/-- Encoding is injective (it has `decodeBase62` as a left inverse). -/
theorem encodeBase62_injective (n1 n2 : Nat) (h : encodeBase62 n1 = encodeBase62 n2) :
    n1 = n2 := by
  have h1 := decodeBase62_encodeBase62 n1
  rw [h, decodeBase62_encodeBase62] at h1
  exact h1.symm

/-- Every alphabet character is an ASCII letter or digit. -/
theorem b62char_alnum (i : Nat) (h : i < 62) :
    ((BASE62_CHARS.data.getD i '0').isAlpha || (BASE62_CHARS.data.getD i '0').isDigit)
      = true := by
  revert h
  revert i
  decide

/-- The encode loop only ever prepends letters and digits. -/
theorem encodeBase62Go_all (fuel : Nat) :
    ∀ num result, result.all (fun c => c.isAlpha || c.isDigit) = true →
      (encodeBase62Go fuel num result).all (fun c => c.isAlpha || c.isDigit) = true := by
  induction fuel with
  | zero => intro num result h; exact h
  | succ f ih =>
    intro num result h
    match num with
    | 0 => exact h
    | n + 1 =>
      rw [encodeBase62Go]
      apply ih
      rw [List.all_cons, b62char_alnum _ (Nat.mod_lt _ (by norm_num)), h]
      rfl

/-- A value below `62 ^ k` encodes to at most `k` more characters than
the accumulator already holds. -/
theorem encodeBase62Go_length (fuel : Nat) :
    ∀ num result k, num ≤ fuel → num < 62 ^ k →
      (encodeBase62Go fuel num result).length ≤ k + result.length := by
  induction fuel with
  | zero =>
    intro num result k hf hk
    interval_cases num
    exact Nat.le_add_left _ _
  | succ f ih =>
    intro num result k hf hk
    match num with
    | 0 => exact Nat.le_add_left _ _
    | n + 1 =>
      match k with
      | 0 => simp at hk
      | j + 1 =>
        rw [encodeBase62Go]
        have hdiv : (n + 1) / 62 < 62 ^ j := by
          rw [Nat.div_lt_iff_lt_mul (by norm_num : 0 < 62)]
          calc n + 1 < 62 ^ (j + 1) := hk
            _ = 62 ^ j * 62 := by rw [Nat.pow_succ]
        have h3 := ih ((n + 1) / 62)
          (BASE62_CHARS.data.getD ((n + 1) % 62) '0' :: result) j (by omega) hdiv
        simp only [List.length_cons] at h3
        omega

/-- The encode loop never shrinks the accumulator. -/
theorem encodeBase62Go_length_ge (fuel : Nat) :
    ∀ num result, result.length ≤ (encodeBase62Go fuel num result).length := by
  induction fuel with
  | zero => intro num result; exact Nat.le_refl _
  | succ f ih =>
    intro num result
    match num with
    | 0 => exact Nat.le_refl _
    | n + 1 =>
      rw [encodeBase62Go]
      calc result.length
          ≤ (BASE62_CHARS.data.getD ((n + 1) % 62) '0' :: result).length := by
            simp
        _ ≤ _ := ih _ _

/-- Codes produced by the encoder for values below `62 ^ 10` pass the
format check of the redirect handler. -/
theorem isValidShortCode_encodeBase62 (n : Nat) (h : n < 62 ^ 10) :
    isValidShortCode (encodeBase62 n) = true := by
  by_cases h0 : n = 0
  · subst h0; decide
  · rw [encodeBase62, if_neg h0]
    have hall := encodeBase62Go_all n n [] rfl
    have hlen := encodeBase62Go_length n n [] 10 (Nat.le_refl n) h
    have hge : 1 ≤ (encodeBase62Go n n []).length := by
      match n, h0 with
      | m + 1, _ =>
        rw [encodeBase62Go]
        calc 1 ≤ (BASE62_CHARS.data.getD ((m + 1) % 62) '0' :: ([] : List Char)).length := by
              simp
          _ ≤ _ := encodeBase62Go_length_ge _ _ _
    rw [isValidShortCode]
    have hdata : (String.mk (encodeBase62Go n n [])).data = encodeBase62Go n n [] := rfl
    have hlength : (String.mk (encodeBase62Go n n [])).length = (encodeBase62Go n n []).length := rfl
    rw [hdata, hlength]
    have hne : (encodeBase62Go n n []).isEmpty = false := by
      match hl : encodeBase62Go n n [] with
      | [] => rw [hl] at hge; simp at hge
      | c :: cs => rfl
    rw [hne, hall]
    simp only [List.length_nil, Nat.add_zero] at hlen
    simp [hge, hlen]

/-- Allocating a counter value does not touch the URL collection. -/
theorem getNextCounterValue_urls (db : DB) : (getNextCounterValue db).2.urls = db.urls := by
  rcases db with ⟨urls, counter⟩
  cases counter <;> rfl

/-- With an existing counter, allocation is increment-and-return. -/
theorem getNextCounterValue_eq (db : DB) (c : Nat) (h : db.counter = some c) :
    getNextCounterValue db = (c + 1, { db with counter := some (c + 1) }) := by
  rw [getNextCounterValue, h]

/-- Evaluation of `shorten`: missing body field. -/
theorem shorten_none (db : DB) : shorten db none = (.missingUrl, db) := rfl

/-- Evaluation of `shorten`: the empty string is falsy. -/
theorem shorten_empty (db : DB) : shorten db (some "") = (.missingUrl, db) := rfl

/-- Evaluation of `shorten`: URL failing validation. -/
theorem shorten_invalid (db : DB) (u : String) (hne : u ≠ "")
    (hv : isValidUrl (jsTrim u) = false) :
    shorten db (some u) = (.invalidUrl, db) := by
  simp [shorten.eq_def, hne, hv]

/-- Evaluation of `shorten`: the dedup path. -/
theorem shorten_dedup (db : DB) (u : String) (r : UrlRecord) (hne : u ≠ "")
    (hv : isValidUrl (jsTrim u) = true)
    (hfound : findByOriginalUrl db.urls (jsTrim u) = some r) :
    shorten db (some u) = (.alreadyExists r.shortCode (jsTrim u), db) := by
  simp [shorten.eq_def, hne, hv, hfound]

/-- Evaluation of `shorten`: allocation hits an already-stored code, so
`save()` rejects on the unique index and the handler answers 500 with
the counter increment already persisted. -/
theorem shorten_alloc_dup (db : DB) (u : String) (r : UrlRecord) (hne : u ≠ "")
    (hv : isValidUrl (jsTrim u) = true)
    (hmiss : findByOriginalUrl db.urls (jsTrim u) = none)
    (hdup : findByShortCode db.urls (encodeBase62 (getNextCounterValue db).1) = some r) :
    shorten db (some u) = (.internalError, (getNextCounterValue db).2) := by
  simp only [shorten.eq_def, getNextCounterValue_urls]
  simp [hne, hv, hmiss, hdup]

/-- Evaluation of `shorten`: successful creation. -/
theorem shorten_alloc_create (db : DB) (u : String) (hne : u ≠ "")
    (hv : isValidUrl (jsTrim u) = true)
    (hmiss : findByOriginalUrl db.urls (jsTrim u) = none)
    (hfresh : findByShortCode db.urls (encodeBase62 (getNextCounterValue db).1) = none) :
    shorten db (some u) =
      (.createdNew (encodeBase62 (getNextCounterValue db).1) (jsTrim u),
       { urls := db.urls ++
           [{ originalUrl := (jsTrim u),
              shortCode := encodeBase62 (getNextCounterValue db).1, clicks := 0 }],
         counter := (getNextCounterValue db).2.counter }) := by
  simp only [shorten.eq_def, getNextCounterValue_urls]
  simp [hne, hv, hmiss, hfresh]

/-- A shorten call either leaves the collection alone or appends one
fresh record whose code was not stored before. -/
theorem shorten_urls_cases (db : DB) (u : Option String) :
    (shorten db u).2.urls = db.urls ∨
    ∃ t code, findByShortCode db.urls code = none ∧
      (shorten db u).2.urls =
        db.urls ++ [{ originalUrl := t, shortCode := code, clicks := 0 }] := by
  match u with
  | none => exact Or.inl rfl
  | some v =>
    by_cases hne : v = ""
    · subst hne; exact Or.inl rfl
    · cases hv : isValidUrl (jsTrim v) with
      | false => rw [shorten_invalid db v hne hv]; exact Or.inl rfl
      | true =>
        cases hfound : findByOriginalUrl db.urls (jsTrim v) with
        | some r => rw [shorten_dedup db v r hne hv hfound]; exact Or.inl rfl
        | none =>
          cases hdup : findByShortCode db.urls (encodeBase62 (getNextCounterValue db).1) with
          | some r =>
            rw [shorten_alloc_dup db v r hne hv hfound hdup]
            exact Or.inl (getNextCounterValue_urls db)
          | none =>
            rw [shorten_alloc_create db v hne hv hfound hdup]
            exact Or.inr ⟨(jsTrim v), encodeBase62 (getNextCounterValue db).1, hdup, rfl⟩

/-- A shorten call increments the counter at most once. -/
theorem shorten_counter_cases (db : DB) (u : Option String) (c : Nat)
    (h : db.counter = some c) :
    (shorten db u).2.counter = some c ∨ (shorten db u).2.counter = some (c + 1) := by
  match u with
  | none => exact Or.inl h
  | some v =>
    by_cases hne : v = ""
    · subst hne; exact Or.inl h
    · cases hv : isValidUrl (jsTrim v) with
      | false => rw [shorten_invalid db v hne hv]; exact Or.inl h
      | true =>
        cases hfound : findByOriginalUrl db.urls (jsTrim v) with
        | some r => rw [shorten_dedup db v r hne hv hfound]; exact Or.inl h
        | none =>
          cases hdup : findByShortCode db.urls (encodeBase62 (getNextCounterValue db).1) with
          | some r =>
            rw [shorten_alloc_dup db v r hne hv hfound hdup]
            rw [getNextCounterValue_eq db c h]
            exact Or.inr rfl
          | none =>
            rw [shorten_alloc_create db v hne hv hfound hdup]
            rw [getNextCounterValue_eq db c h]
            exact Or.inr rfl

/-- Click increments never change the stored short codes. -/
theorem codes_incrementClicks (urls : List UrlRecord) (code : String) :
    (incrementClicks urls code).map (fun r => r.shortCode) =
      urls.map (fun r => r.shortCode) := by
  induction urls with
  | nil => rfl
  | cons r rs ih =>
    rw [incrementClicks, List.map_cons, List.map_cons, List.map_cons] at *
    refine congrArg₂ _ ?_ ih
    split <;> rfl

/-- The redirect handler never changes the stored short codes. -/
theorem codes_resolveWith (db : DB) (path : String) (ok : Bool) :
    codes (resolveWith db path ok).2 = codes db := by
  rw [resolveWith]
  split
  · rfl
  · split
    · rfl
    · split
      · rfl
      · rw [codes]
        split
        · exact codes_incrementClicks _ _
        · rfl

/-- The info handler is read-only. -/
theorem info_snd (db : DB) (code : String) : (info db code).2 = db := by
  rw [info]
  split
  · rfl
  · split <;> rfl

/-- Evaluation of the redirect handler: reserved paths. -/
theorem resolveWith_reserved (db : DB) (path : String) (ok : Bool)
    (h : path = "" ∨ jsStartsWith path "api/" = true ∨ path = "favicon.ico") :
    resolveWith db path ok = (.pageNotFound, db) := by
  rw [resolveWith, if_pos h]

/-- Evaluation of the redirect handler: malformed code. -/
theorem resolveWith_invalid (db : DB) (path : String) (ok : Bool)
    (h : ¬(path = "" ∨ jsStartsWith path "api/" = true ∨ path = "favicon.ico"))
    (hbad : isValidShortCode path = false) :
    resolveWith db path ok = (.invalidShortCode, db) := by
  rw [resolveWith, if_neg h, if_pos hbad]

/-- Evaluation of the redirect handler: well-formed but unknown code. -/
theorem resolveWith_notFound (db : DB) (path : String) (ok : Bool)
    (h : ¬(path = "" ∨ jsStartsWith path "api/" = true ∨ path = "favicon.ico"))
    (hok : isValidShortCode path = true)
    (hmiss : findByShortCode db.urls path = none) :
    resolveWith db path ok = (.notFound path, db) := by
  rw [resolveWith, if_neg h, if_neg (by rw [hok]; simp), hmiss]

/-- Evaluation of the redirect handler: known code. -/
theorem resolveWith_found (db : DB) (path : String) (ok : Bool) (r : UrlRecord)
    (h : ¬(path = "" ∨ jsStartsWith path "api/" = true ∨ path = "favicon.ico"))
    (hok : isValidShortCode path = true)
    (hfound : findByShortCode db.urls path = some r) :
    resolveWith db path ok =
      (.redirect r.originalUrl,
       if ok then { db with urls := incrementClicks db.urls r.shortCode } else db) := by
  rw [resolveWith, if_neg h, if_neg (by rw [hok]; simp), hfound]

/-- A string containing a character that is neither an ASCII letter nor
a digit fails the format check. -/
theorem isValidShortCode_false_of_mem (path : String) (c : Char) (hc : c ∈ path.data)
    (hbad : (c.isAlpha || c.isDigit) = false) :
    isValidShortCode path = false := by
  rw [isValidShortCode]
  have hall : path.data.all (fun c => c.isAlpha || c.isDigit) = false := by
    cases h : path.data.all (fun c => c.isAlpha || c.isDigit) with
    | false => rfl
    | true => rw [List.all_eq_true] at h; rw [h c hc] at hbad; exact absurd hbad (by simp)
  rw [hall]
  simp

/-- Paths under `api/` contain a slash. -/
theorem slash_of_startsWith_api (path : String) (h : jsStartsWith path "api/" = true) :
    '/' ∈ path.data := by
  rw [jsStartsWith] at h
  obtain ⟨t, ht⟩ := List.isPrefixOf_iff_prefix.mp h
  rw [← ht]
  simp

/-- Every reserved path fails the short-code format check. -/
theorem isValidShortCode_reserved_false (path : String)
    (h : path = "" ∨ jsStartsWith path "api/" = true ∨ path = "favicon.ico") :
    isValidShortCode path = false := by
  rcases h with h | h | h
  · subst h; decide
  · exact isValidShortCode_false_of_mem path '/' (slash_of_startsWith_api path h) (by decide)
  · subst h; decide

/-- A path passing the format check is not a reserved path. -/
theorem not_reserved_of_valid (path : String) (h : isValidShortCode path = true) :
    ¬(path = "" ∨ jsStartsWith path "api/" = true ∨ path = "favicon.ico") := by
  intro hr
  rw [isValidShortCode_reserved_false path hr] at h
  exact absurd h (by simp)

/-- Searching an extended collection when the first part misses. -/
theorem find?_append_left_none {α : Type} (p : α → Bool) (l1 l2 : List α)
    (h : l1.find? p = none) : (l1 ++ l2).find? p = l2.find? p := by
  simp [List.find?_append, h]

/-- A code absent from the store is not among the stored codes. -/
theorem not_mem_codes (urls : List UrlRecord) (code : String)
    (h : findByShortCode urls code = none) :
    code ∉ urls.map (fun r => r.shortCode) := by
  rw [findByShortCode, List.find?_eq_none] at h
  intro hmem
  obtain ⟨r, hr, hrc⟩ := List.mem_map.mp hmem
  exact h r hr (beq_iff_eq.mpr hrc)

/-- Serving one request preserves distinctness of stored codes. -/
theorem codes_step_nodup (db : DB) (op : Op) (h : (codes db).Nodup) :
    (codes (step db op)).Nodup := by
  cases op with
  | shortenReq u =>
    rcases shorten_urls_cases db u with heq | ⟨t, code, hnone, heq⟩
    · rw [step, codes, heq]; exact h
    · rw [step, codes, heq, List.map_append]
      refine List.Nodup.append h (List.nodup_singleton _) ?_
      simp only [List.map_cons, List.map_nil]
      intro a ha hb
      simp at hb
      rw [hb] at ha
      exact not_mem_codes db.urls code hnone ha
  | resolveReq p ok =>
    rw [step]
    have := codes_resolveWith db p ok
    rw [this]
    exact h
  | infoReq c =>
    rw [step, info_snd]
    exact h

/-- Serving any request sequence preserves distinctness of stored
codes. -/
theorem run_codes_nodup (ops : List Op) :
    ∀ db, (codes db).Nodup → (codes (run db ops)).Nodup := by
  induction ops with
  | nil => intro db h; exact h
  | cons op ops ih => intro db h; rw [run]; exact ih _ (codes_step_nodup db op h)

/-- Repeated allocation from a live counter hands out consecutive
values. -/
theorem nextValues_eq (k : Nat) :
    ∀ (db : DB) (c : Nat), db.counter = some c →
      nextValues db k = List.range' (c + 1) k := by
  induction k with
  | zero => intro db c h; rfl
  | succ j ih =>
    intro db c h
    simp only [nextValues]
    rw [getNextCounterValue_eq db c h]
    show (c + 1) :: nextValues { db with counter := some (c + 1) } j =
      List.range' (c + 1) (j + 1)
    rw [ih _ (c + 1) rfl, List.range'_succ]

/-! ## Claim theorems -/

/-- C1: starting from the empty store, after any sequence of shorten,
resolve and info operations, every two distinct stored records have
different `shortCode` values. -/
theorem claim_C1_shortcode_uniqueness (ops : List Op) :
    List.Pairwise (fun r s => r.shortCode ≠ s.shortCode) (run initDB ops).urls := by
  have h := run_codes_nodup ops initDB (by decide)
  rw [codes] at h
  exact List.pairwise_map.mp h

/-- C2: base-62 decode inverts encode on every non-negative integer,
and encode is injective. -/
theorem claim_C2_encode_decode :
    (∀ n : Nat, decodeBase62 (encodeBase62 n) = n) ∧
    (∀ n1 n2 : Nat, n1 ≠ n2 → encodeBase62 n1 ≠ encodeBase62 n2) := by
  refine ⟨decodeBase62_encodeBase62, ?_⟩
  intro n1 n2 hne heq
  exact hne (encodeBase62_injective n1 n2 heq)

/-- Witness for C2 at concrete inputs. -/
theorem claim_C2_encode_decode_witness :
    decodeBase62 (encodeBase62 100000) = 100000 ∧
    encodeBase62 100000 ≠ encodeBase62 100001 :=
  ⟨claim_C2_encode_decode.1 100000,
   claim_C2_encode_decode.2 100000 100001 (by decide)⟩

/-- C4: allocation increments the single counter and returns the
post-increment value; successive calls return strictly increasing,
pairwise distinct values; the counter is created at 100000 when
absent. -/
theorem claim_C4_sequence_allocation :
    (∀ db : DB, db.counter = none → (initializeCounter db).counter = some 100000) ∧
    (∀ (db : DB) (c : Nat), db.counter = some c →
       getNextCounterValue db = (c + 1, { db with counter := some (c + 1) })) ∧
    (∀ (db : DB) (c k : Nat), db.counter = some c →
       nextValues db k = List.range' (c + 1) k ∧
       List.Pairwise (· < ·) (nextValues db k) ∧ (nextValues db k).Nodup) := by
  refine ⟨?_, getNextCounterValue_eq, ?_⟩
  · intro db h
    rcases db with ⟨urls, cnt⟩
    cases cnt with
    | none => rfl
    | some v => exact absurd h (by simp)
  · intro db c k h
    have he := nextValues_eq k db c h
    refine ⟨he, ?_, ?_⟩
    · rw [he]; exact List.pairwise_lt_range' _ _
    · rw [he]; exact List.nodup_range' _ _

/-- Witness for C4: a fresh boot initializes the counter to 100000 and
then hands out 100001, 100002, 100003. -/
theorem claim_C4_sequence_allocation_witness :
    (initializeCounter { urls := [], counter := none }).counter = some 100000 ∧
    getNextCounterValue initDB = (100001, { urls := [], counter := some 100001 }) ∧
    nextValues initDB 3 = [100001, 100002, 100003] := by
  refine ⟨claim_C4_sequence_allocation.1 _ rfl, ?_, ?_⟩
  · rw [claim_C4_sequence_allocation.2.1 initDB 100000 rfl]; rfl
  · rw [(claim_C4_sequence_allocation.2.2 initDB 100000 3 rfl).1]; rfl

/-- C9: the response the redirect handler hands the caller does not
depend on whether the fire-and-forget click increment succeeds. -/
theorem claim_C9_click_isolation (db : DB) (path : String) (ok1 ok2 : Bool) :
    (resolveWith db path ok1).1 = (resolveWith db path ok2).1 := by
  simp only [resolveWith]
  split
  · rfl
  · split
    · rfl
    · cases findByShortCode db.urls path <;> rfl

/-- C6: an empty or invalid URL is rejected with a 400 client error and
the store — counter and records alike — is left exactly as it was. -/
theorem claim_C6_invalid_url_atomicity (db : DB) (u : String)
    (h : u = "" ∨ isValidUrl (jsTrim u) = false) :
    ∃ out : ShortenOutcome,
      shorten db (some u) = (out, db) ∧ out.status = 400 ∧
        (out = .missingUrl ∨ out = .invalidUrl) := by
  by_cases hne : u = ""
  · subst hne; exact ⟨.missingUrl, rfl, rfl, Or.inl rfl⟩
  · rcases h with h | h
    · exact absurd h hne
    · exact ⟨.invalidUrl, shorten_invalid db u hne h, rfl, Or.inr rfl⟩

/-- Witness for C6: a URL with a non-http scheme is rejected and the
state is unchanged. -/
theorem claim_C6_invalid_url_atomicity_witness :
    ∃ out : ShortenOutcome,
      shorten initDB (some "ftp://example.com") = (out, initDB) ∧ out.status = 400 ∧
        (out = .missingUrl ∨ out = .invalidUrl) :=
  claim_C6_invalid_url_atomicity initDB "ftp://example.com" (Or.inr (by decide))

/-- The redirect handler either leaves the store alone or bumps one
click counter. -/
theorem resolveWith_snd_cases (db : DB) (path : String) (ok : Bool) :
    (resolveWith db path ok).2 = db ∨
    ∃ code, (resolveWith db path ok).2 = { db with urls := incrementClicks db.urls code } := by
  rw [resolveWith]
  split
  · exact Or.inl rfl
  · split
    · exact Or.inl rfl
    · cases hf : findByShortCode db.urls path with
      | none => exact Or.inl rfl
      | some r =>
        cases ok with
        | true => exact Or.inr ⟨r.shortCode, rfl⟩
        | false => exact Or.inl rfl

/-- Evaluation of `shorten` with a live counter: duplicate-code
conflict. -/
theorem shorten_dup_counter (db : DB) (u : String) (c : Nat) (r : UrlRecord)
    (hc : db.counter = some c) (hne : u ≠ "")
    (hv : isValidUrl (jsTrim u) = true)
    (hmiss : findByOriginalUrl db.urls (jsTrim u) = none)
    (hdup : findByShortCode db.urls (encodeBase62 (c + 1)) = some r) :
    shorten db (some u) = (.internalError, { db with counter := some (c + 1) }) := by
  have h1 := shorten_alloc_dup db u r hne hv hmiss
    (by rw [getNextCounterValue_eq db c hc]; exact hdup)
  rw [h1, getNextCounterValue_eq db c hc]

/-- Evaluation of `shorten` with a live counter: successful creation
stores the trimmed URL under the code of the post-increment counter
value. -/
theorem shorten_create_counter (db : DB) (u : String) (c : Nat)
    (hc : db.counter = some c) (hne : u ≠ "")
    (hv : isValidUrl (jsTrim u) = true)
    (hmiss : findByOriginalUrl db.urls (jsTrim u) = none)
    (hfresh : findByShortCode db.urls (encodeBase62 (c + 1)) = none) :
    shorten db (some u) =
      (.createdNew (encodeBase62 (c + 1)) (jsTrim u),
       { urls := db.urls ++
           [{ originalUrl := jsTrim u, shortCode := encodeBase62 (c + 1), clicks := 0 }],
         counter := some (c + 1) }) := by
  have h1 := shorten_alloc_create db u hne hv hmiss
    (by rw [getNextCounterValue_eq db c hc]; exact hfresh)
  rw [h1, getNextCounterValue_eq db c hc]

/-- A fresh boot satisfies the reachability invariant. -/
theorem goodDB_initDB : GoodDB initDB :=
  ⟨100000, rfl, Nat.le_refl _, fun r hr => absurd hr (List.not_mem_nil r)⟩

/-- Under the invariant, the code for the next counter value is never
already stored. -/
theorem goodDB_fresh (db : DB) (c : Nat) (hdb : GoodDB db) (hc : db.counter = some c) :
    findByShortCode db.urls (encodeBase62 (c + 1)) = none := by
  obtain ⟨c', hc', hge, hrec⟩ := hdb
  have hcc : c' = c := Option.some.inj (hc'.symm.trans hc)
  subst hcc
  rw [findByShortCode, List.find?_eq_none]
  intro r hr hbeq
  obtain ⟨v, hvle, hv1, hcode⟩ := hrec r hr
  have heq : r.shortCode = encodeBase62 (c' + 1) := beq_iff_eq.mp hbeq
  rw [hcode] at heq
  have := encodeBase62_injective v (c' + 1) heq
  omega

/-- Serving one request preserves the reachability invariant. -/
theorem goodDB_step (db : DB) (op : Op) (h : GoodDB db) : GoodDB (step db op) := by
  obtain ⟨c, hc, hge, hrec⟩ := h
  cases op with
  | shortenReq u =>
    match u with
    | none => exact ⟨c, hc, hge, hrec⟩
    | some v =>
      by_cases hne : v = ""
      · subst hne; exact ⟨c, hc, hge, hrec⟩
      · cases hv : isValidUrl (jsTrim v) with
        | false =>
          rw [step, shorten_invalid db v hne hv]
          exact ⟨c, hc, hge, hrec⟩
        | true =>
          cases hfound : findByOriginalUrl db.urls (jsTrim v) with
          | some r =>
            rw [step, shorten_dedup db v r hne hv hfound]
            exact ⟨c, hc, hge, hrec⟩
          | none =>
            cases hdup : findByShortCode db.urls (encodeBase62 (c + 1)) with
            | some r =>
              rw [step, shorten_dup_counter db v c r hc hne hv hfound hdup]
              refine ⟨c + 1, rfl, by omega, ?_⟩
              intro r2 hr2
              obtain ⟨v2, h1, h2, h3⟩ := hrec r2 hr2
              exact ⟨v2, by omega, h2, h3⟩
            | none =>
              rw [step, shorten_create_counter db v c hc hne hv hfound hdup]
              refine ⟨c + 1, rfl, by omega, ?_⟩
              intro r2 hr2
              rcases List.mem_append.mp hr2 with hr2 | hr2
              · obtain ⟨v2, h1, h2, h3⟩ := hrec r2 hr2
                exact ⟨v2, by omega, h2, h3⟩
              · rw [List.mem_singleton.mp hr2]
                exact ⟨c + 1, Nat.le_refl _, by omega, rfl⟩
  | resolveReq p ok =>
    rcases resolveWith_snd_cases db p ok with heq | ⟨code, heq⟩
    · rw [step, heq]; exact ⟨c, hc, hge, hrec⟩
    · rw [step, heq]
      refine ⟨c, hc, hge, ?_⟩
      intro r2 hr2
      obtain ⟨r0, hr0, hf⟩ := List.mem_map.mp hr2
      obtain ⟨v0, h1, h2, h3⟩ := hrec r0 hr0
      refine ⟨v0, h1, h2, ?_⟩
      rw [← hf]
      split <;> exact h3
  | infoReq cq =>
    rw [step, info_snd]
    exact ⟨c, hc, hge, hrec⟩

/-- Serving any request sequence preserves the reachability
invariant. -/
theorem goodDB_run (ops : List Op) : ∀ db, GoodDB db → GoodDB (run db ops) := by
  induction ops with
  | nil => intro db h; exact h
  | cons op ops ih => intro db h; rw [run]; exact ih _ (goodDB_step db op h)

/-- C10: a reserved path — empty, under `api/`, or `favicon.ico` — gets
the 404 not-found response with the store untouched, not the
InvalidShortCode client error, even though it fails the format check
too. -/
theorem claim_C10_reserved_carveout (db : DB) (path : String) (ok : Bool)
    (h : path = "" ∨ jsStartsWith path "api/" = true ∨ path = "favicon.ico") :
    resolveWith db path ok = (.pageNotFound, db) ∧
    ResolveOutcome.pageNotFound.status = 404 ∧
    isValidShortCode path = false ∧
    ResolveOutcome.pageNotFound ≠ ResolveOutcome.invalidShortCode :=
  ⟨resolveWith_reserved db path ok h, rfl,
   isValidShortCode_reserved_false path h, by decide⟩

/-- Witness for C10 on a concrete API path. -/
theorem claim_C10_reserved_carveout_witness :
    resolveWith initDB "api/health" true = (.pageNotFound, initDB) ∧
    ResolveOutcome.pageNotFound.status = 404 ∧
    isValidShortCode "api/health" = false ∧
    ResolveOutcome.pageNotFound ≠ ResolveOutcome.invalidShortCode :=
  claim_C10_reserved_carveout initDB "api/health" true (Or.inr (Or.inl (by decide)))

/-- C7 counterexample: `favicon.ico` fails the format check
`[A-Za-z0-9]{1,10}` yet resolve answers it with the not-found response,
not with InvalidShortCode — so the rejection is not "exactly" the
format-failing codes. -/
theorem claim_C7_format_check_counterexample :
    isValidShortCode "favicon.ico" = false ∧
    (resolveWith initDB "favicon.ico" true).1 = ResolveOutcome.pageNotFound ∧
    ResolveOutcome.pageNotFound ≠ ResolveOutcome.invalidShortCode := by
  decide

/-- C7 amended: among non-reserved paths, resolve rejects with
InvalidShortCode exactly those failing the format check, with the store
untouched (the rejection precedes any lookup); a path passing the check
is never answered with InvalidShortCode. -/
theorem claim_C7_format_check (db : DB) (path : String) (ok : Bool) :
    (¬(path = "" ∨ jsStartsWith path "api/" = true ∨ path = "favicon.ico") →
       isValidShortCode path = false →
       resolveWith db path ok = (.invalidShortCode, db) ∧
         ResolveOutcome.invalidShortCode.status = 400) ∧
    (isValidShortCode path = true →
       (resolveWith db path ok).1 ≠ ResolveOutcome.invalidShortCode) := by
  constructor
  · intro hres hbad
    exact ⟨resolveWith_invalid db path ok hres hbad, rfl⟩
  · intro hok
    have hres := not_reserved_of_valid path hok
    cases hf : findByShortCode db.urls path with
    | none => rw [resolveWith_notFound db path ok hres hok hf]; simp
    | some r => rw [resolveWith_found db path ok r hres hok hf]; simp

/-- Witness for C7 on concrete malformed and well-formed codes. -/
theorem claim_C7_format_check_witness :
    (resolveWith initDB "ab!" true = (.invalidShortCode, initDB) ∧
      ResolveOutcome.invalidShortCode.status = 400) ∧
    (resolveWith initDB "abc" true).1 ≠ ResolveOutcome.invalidShortCode :=
  ⟨(claim_C7_format_check initDB "ab!" true).1 (by decide) (by decide),
   (claim_C7_format_check initDB "abc" true).2 (by decide)⟩

/-- C8: when the freshly allocated code is already stored, the handler
answers with the 500 hard error, the counter keeps the single increment
it took, and no record is created — there is no retry with a second
allocation; in general a shorten call stores at most one new record and
moves the counter by at most one. -/
theorem claim_C8_duplicate_conflict :
    (∀ (db : DB) (u : String) (c : Nat) (r : UrlRecord),
       db.counter = some c → u ≠ "" → isValidUrl (jsTrim u) = true →
       findByOriginalUrl db.urls (jsTrim u) = none →
       findByShortCode db.urls (encodeBase62 (c + 1)) = some r →
       shorten db (some u) = (.internalError, { db with counter := some (c + 1) }) ∧
         ShortenOutcome.internalError.status = 500) ∧
    (∀ (db : DB) (u : Option String),
       (shorten db u).2.urls.length ≤ db.urls.length + 1 ∧
       (∀ c, db.counter = some c →
          (shorten db u).2.counter = some c ∨ (shorten db u).2.counter = some (c + 1))) := by
  constructor
  · intro db u c r hc hne hv hmiss hdup
    exact ⟨shorten_dup_counter db u c r hc hne hv hmiss hdup, rfl⟩
  · intro db u
    constructor
    · rcases shorten_urls_cases db u with heq | ⟨t, code, hnone, heq⟩
      · rw [heq]; omega
      · rw [heq]; simp
    · intro c hc
      exact shorten_counter_cases db u c hc

/-- Witness for C8: a planted record already holds the code `q0V` that
the counter value 100001 encodes to, so the next shorten call hits the
conflict. -/
theorem claim_C8_duplicate_conflict_witness :
    shorten
        { urls := [{ originalUrl := "http://other.example", shortCode := "q0V", clicks := 0 }],
          counter := some 100000 }
        (some "http://example.com") =
      (ShortenOutcome.internalError,
       { urls := [{ originalUrl := "http://other.example", shortCode := "q0V", clicks := 0 }],
         counter := some 100001 }) ∧
    ShortenOutcome.internalError.status = 500 :=
  claim_C8_duplicate_conflict.1
    { urls := [{ originalUrl := "http://other.example", shortCode := "q0V", clicks := 0 }],
      counter := some 100000 }
    "http://example.com" 100000
    { originalUrl := "http://other.example", shortCode := "q0V", clicks := 0 }
    rfl (by decide) (by decide) (by decide) (by decide)

/-- C3: every state reachable from a fresh boot satisfies the
invariant, and from any such state shortening a valid URL twice yields
the same code both times — the first call answering 201 when it
creates (and always 201 on a dedup miss), the second always answering
200 with the deduplicated code. -/
theorem claim_C3_idempotent_reshortening :
    (∀ ops : List Op, GoodDB (run initDB ops)) ∧
    (∀ (db : DB) (u : String), GoodDB db → u ≠ "" → isValidUrl (jsTrim u) = true →
       ∃ code : String,
         (((shorten db (some u)).1 = .createdNew code (jsTrim u) ∧
             (shorten db (some u)).1.status = 201) ∨
          ((shorten db (some u)).1 = .alreadyExists code (jsTrim u) ∧
             (shorten db (some u)).1.status = 200)) ∧
         (shorten (shorten db (some u)).2 (some u)).1 = .alreadyExists code (jsTrim u) ∧
         (shorten (shorten db (some u)).2 (some u)).1.status = 200 ∧
         (findByOriginalUrl db.urls (jsTrim u) = none →
           (shorten db (some u)).1 = .createdNew code (jsTrim u))) := by
  refine ⟨fun ops => goodDB_run ops initDB goodDB_initDB, ?_⟩
  intro db u hdb hne hv
  cases hfound : findByOriginalUrl db.urls (jsTrim u) with
  | some r =>
    have h1 := shorten_dedup db u r hne hv hfound
    have h2 : shorten (shorten db (some u)).2 (some u) =
        (.alreadyExists r.shortCode (jsTrim u), db) := by
      rw [h1]; exact h1
    refine ⟨r.shortCode, Or.inr ⟨by rw [h1], by rw [h1]; rfl⟩,
      by rw [h2], by rw [h2]; rfl, ?_⟩
    intro hcon
    exact Option.noConfusion hcon
  | none =>
    obtain ⟨c, hc, hge, hrec⟩ := hdb
    have hfresh := goodDB_fresh db c ⟨c, hc, hge, hrec⟩ hc
    have h1 := shorten_create_counter db u c hc hne hv hfound hfresh
    have hfound2 : findByOriginalUrl
        (db.urls ++
          [{ originalUrl := jsTrim u, shortCode := encodeBase62 (c + 1), clicks := 0 }])
        (jsTrim u) =
        some { originalUrl := jsTrim u, shortCode := encodeBase62 (c + 1), clicks := 0 } := by
      rw [findByOriginalUrl] at hfound ⊢
      rw [find?_append_left_none _ _ _ hfound]
      simp
    have h2 : shorten (shorten db (some u)).2 (some u) =
        (.alreadyExists (encodeBase62 (c + 1)) (jsTrim u), (shorten db (some u)).2) := by
      rw [h1]
      exact shorten_dedup
        { urls := db.urls ++
            [{ originalUrl := jsTrim u, shortCode := encodeBase62 (c + 1), clicks := 0 }],
          counter := some (c + 1) } u
        { originalUrl := jsTrim u, shortCode := encodeBase62 (c + 1), clicks := 0 }
        hne hv hfound2
    refine ⟨encodeBase62 (c + 1), Or.inl ⟨by rw [h1], by rw [h1]; rfl⟩,
      by rw [h2], by rw [h2]; rfl, fun _ => by rw [h1]⟩

/-- Witness for C3 from a fresh boot with a concrete URL. -/
theorem claim_C3_idempotent_reshortening_witness :
    GoodDB (run initDB []) ∧
    ∃ code : String,
      (((shorten initDB (some "http://example.com")).1 =
            .createdNew code (jsTrim "http://example.com") ∧
          (shorten initDB (some "http://example.com")).1.status = 201) ∨
       ((shorten initDB (some "http://example.com")).1 =
            .alreadyExists code (jsTrim "http://example.com") ∧
          (shorten initDB (some "http://example.com")).1.status = 200)) ∧
      (shorten (shorten initDB (some "http://example.com")).2
          (some "http://example.com")).1 =
        .alreadyExists code (jsTrim "http://example.com") ∧
      (shorten (shorten initDB (some "http://example.com")).2
          (some "http://example.com")).1.status = 200 ∧
      (findByOriginalUrl initDB.urls (jsTrim "http://example.com") = none →
        (shorten initDB (some "http://example.com")).1 =
          .createdNew code (jsTrim "http://example.com")) :=
  ⟨claim_C3_idempotent_reshortening.1 [],
   claim_C3_idempotent_reshortening.2 initDB "http://example.com"
     goodDB_initDB (by decide) (by decide)⟩

/-- C5 counterexample: shorten is given the raw string
`" http://example.com/a "` (note the surrounding spaces) but resolve
redirects to the trimmed `"http://example.com/a"`, which differs from
the string given to the shorten call — the stored URL is the trimmed
one, not the argument "unmodified". -/
theorem claim_C5_resolution_counterexample :
    (shorten initDB (some " http://example.com/a ")).1 =
      ShortenOutcome.createdNew "q0V" "http://example.com/a" ∧
    (resolveWith (shorten initDB (some " http://example.com/a ")).2 "q0V" true).1 =
      ResolveOutcome.redirect "http://example.com/a" ∧
    "http://example.com/a" ≠ " http://example.com/a " := by
  decide

/-- C5 amended: for a path passing the format check, resolve answers an
unknown code with the 404 not-found response and a known code with a
301 redirect to the stored `originalUrl` of the record; a record created by
shorten stores the trimmed URL, so the redirect target is the trimmed
form of what the shorten call was given. -/
theorem claim_C5_resolution (db : DB) (path : String) (ok : Bool)
    (hok : isValidShortCode path = true) :
    (findByShortCode db.urls path = none →
       resolveWith db path ok = (.notFound path, db) ∧
         (ResolveOutcome.notFound path).status = 404) ∧
    (∀ r : UrlRecord, findByShortCode db.urls path = some r →
       (resolveWith db path ok).1 = .redirect r.originalUrl ∧
         (ResolveOutcome.redirect r.originalUrl).status = 301) ∧
    (∀ (db0 : DB) (u code t : String) (db1 : DB),
       shorten db0 (some u) = (.createdNew code t, db1) →
       t = jsTrim u ∧
         findByShortCode db1.urls code =
           some { originalUrl := jsTrim u, shortCode := code, clicks := 0 }) := by
  have hres := not_reserved_of_valid path hok
  refine ⟨?_, ?_, ?_⟩
  · intro hmiss
    exact ⟨resolveWith_notFound db path ok hres hok hmiss, rfl⟩
  · intro r hf
    rw [resolveWith_found db path ok r hres hok hf]
    exact ⟨rfl, rfl⟩
  · intro db0 u code t db1 heq
    by_cases hne : u = ""
    · subst hne
      rw [shorten_empty] at heq
      exact absurd heq (by simp)
    · cases hv : isValidUrl (jsTrim u) with
      | false =>
        rw [shorten_invalid db0 u hne hv] at heq
        exact absurd heq (by simp)
      | true =>
        cases hfound : findByOriginalUrl db0.urls (jsTrim u) with
        | some r =>
          rw [shorten_dedup db0 u r hne hv hfound] at heq
          exact absurd heq (by simp)
        | none =>
          cases hdup : findByShortCode db0.urls
              (encodeBase62 (getNextCounterValue db0).1) with
          | some r =>
            rw [shorten_alloc_dup db0 u r hne hv hfound hdup] at heq
            exact absurd heq (by simp)
          | none =>
            rw [shorten_alloc_create db0 u hne hv hfound hdup] at heq
            rw [Prod.mk.injEq, ShortenOutcome.createdNew.injEq] at heq
            obtain ⟨⟨hC, ht⟩, hdb⟩ := heq
            refine ⟨ht.symm, ?_⟩
            rw [← hdb, ← hC]
            show findByShortCode
              (db0.urls ++
                [{ originalUrl := jsTrim u,
                   shortCode := encodeBase62 (getNextCounterValue db0).1, clicks := 0 }])
              (encodeBase62 (getNextCounterValue db0).1) = _
            rw [findByShortCode] at hdup ⊢
            rw [find?_append_left_none _ _ _ hdup]
            simp

/-- Witness for C5: an unknown code 404s on the fresh store, and a
stored code redirects to its stored URL. -/
theorem claim_C5_resolution_witness :
    resolveWith initDB "q0V" true = (ResolveOutcome.notFound "q0V", initDB) ∧
    (resolveWith
        { urls := [{ originalUrl := "http://example.com/a", shortCode := "q0V", clicks := 0 }],
          counter := some 100001 } "q0V" true).1 =
      ResolveOutcome.redirect "http://example.com/a" :=
  ⟨((claim_C5_resolution initDB "q0V" true (by decide)).1 rfl).1,
   ((claim_C5_resolution
       { urls := [{ originalUrl := "http://example.com/a", shortCode := "q0V", clicks := 0 }],
         counter := some 100001 } "q0V" true (by decide)).2.1
     { originalUrl := "http://example.com/a", shortCode := "q0V", clicks := 0 } rfl).1⟩
